import Mathlib

/-!
# Verification of the hecto editor core (rows, buffer, cursor, search)

Shallow embedding of the `hecto` text editor's buffer core:

* `src/row.rs`    — grapheme-indexed rows (`Row`),
* `src/document.rs` — the document buffer (`Document`),
* `src/editor.rs` — cursor movement and viewport scrolling.

Strings are modelled as `List Char`. Grapheme segmentation (the
`unicode_segmentation` crate's `graphemes(true)` / `grapheme_indices(true)`)
is modelled by `graphemes`, a simplified UAX-29 segmenter that is exact for
the character classes exercised here: an extending character (combining
diacritical marks, U+0300–U+036F) attaches to the preceding cluster, and a
control character always forms a cluster of its own (break before and after).
Byte offsets reported by the regex engine are modelled via the UTF-8 width
`charBytes` of each scalar value.

The regex engine (`regex::Regex`) is an external collaborator; it is
modelled abstractly by a `Matcher`, a pair of functions giving the byte
offset of the first match (`Regex::find`) and of the last match
(`Regex::find_iter(..).last()`) in a string.
-/

namespace Hecto

/-- Extending characters of our fragment: combining diacritical marks
U+0300–U+036F (`Extend` in UAX-29; used by the source's test scenarios,
e.g. U+0301 COMBINING ACUTE ACCENT). -/
def isCombining (c : Char) : Bool :=
  decide (0x300 ≤ c.toNat ∧ c.toNat ≤ 0x36F)

/-- Control characters (C0, DEL, C1): UAX-29 breaks before and after them. -/
def isControlCh (c : Char) : Bool :=
  decide (c.toNat < 0x20 ∨ c.toNat = 0x7F ∨ (0x80 ≤ c.toNat ∧ c.toNat ≤ 0x9F))

/-- Width of a scalar value in UTF-8 bytes (`char::len_utf8`). -/
def charBytes (c : Char) : Nat :=
  if c.toNat < 0x80 then 1
  else if c.toNat < 0x800 then 2
  else if c.toNat < 0x10000 then 3
  else 4

/-- Byte length of a string (`String::len` in Rust counts UTF-8 bytes). -/
def utf8Len (s : List Char) : Nat :=
  (s.map charBytes).sum

/-- One step of the segmenter: prepend character `c` to the segmentation of
the rest of the string.  A non-control `c` absorbs a leading all-extending
cluster; otherwise it starts its own cluster. -/
def graphemesStep (c : Char) (gs : List (List Char)) : List (List Char) :=
  if isControlCh c then [c] :: gs
  else
    match gs with
    | [] => [[c]]
    | g :: rest => if g.all isCombining then (c :: g) :: rest else [c] :: g :: rest

/-- Grapheme-cluster segmentation (model of `graphemes(true)`), simplified
UAX-29: a non-control character absorbs a following run of extending
characters; a control character is always a cluster by itself; an extending
character with no preceding base starts its own cluster. -/
def graphemes : List Char → List (List Char)
  | [] => []
  | c :: cs => graphemesStep c (graphemes cs)

theorem graphemes_cons (c : Char) (cs : List Char) :
    graphemes (c :: cs) = graphemesStep c (graphemes cs) := rfl

theorem graphemesStep_ctl {c : Char} (gs : List (List Char))
    (h : isControlCh c = true) : graphemesStep c gs = [c] :: gs := by
  simp [graphemesStep, h]

theorem graphemesStep_base {c : Char} (h : isControlCh c = false) :
    graphemesStep c [] = [[c]] := by
  simp [graphemesStep, h]

theorem graphemesStep_merge {c : Char} {g : List Char} (rest : List (List Char))
    (h : isControlCh c = false) (hall : g.all isCombining = true) :
    graphemesStep c (g :: rest) = (c :: g) :: rest := by
  simp [graphemesStep, h, hall]

theorem graphemesStep_new {c : Char} {g : List Char} (rest : List (List Char))
    (h : isControlCh c = false) (hall : g.all isCombining = false) :
    graphemesStep c (g :: rest) = [c] :: g :: rest := by
  simp [graphemesStep, h, hall]

theorem graphemesStep_ne_nil (c : Char) (gs : List (List Char)) :
    graphemesStep c gs ≠ [] := by
  unfold graphemesStep
  split
  · simp
  · split
    · simp
    · split <;> simp

theorem graphemes_nil_def : graphemes ([] : List Char) = [] := rfl

theorem graphemes_eq_nil_iff (s : List Char) : graphemes s = [] ↔ s = [] := by
  cases s with
  | nil => simp [graphemes]
  | cons c cs =>
    simp only [graphemes_cons]
    exact ⟨fun h => absurd h (graphemesStep_ne_nil c (graphemes cs)),
      fun h => absurd h (by simp)⟩

/-- Concatenating the clusters of a segmentation recovers the string. -/
theorem graphemes_join (s : List Char) : (graphemes s).flatten = s := by
  induction s with
  | nil => rfl
  | cons c cs ih =>
    rw [graphemes_cons]
    by_cases hc : isControlCh c
    · rw [graphemesStep_ctl _ hc]
      simp [ih]
    · rcases hgs : graphemes cs with _ | ⟨g, rest⟩
      · rw [graphemesStep_base (by simpa using hc)]
        have : cs = [] := (graphemes_eq_nil_iff cs).mp hgs
        subst this; rfl
      · rw [hgs] at ih
        by_cases hall : g.all isCombining
        · rw [graphemesStep_merge rest (by simpa using hc) hall]
          simp only [List.flatten_cons] at ih ⊢
          simp [ih]
        · rw [graphemesStep_new rest (by simpa using hc) (by simpa using hall)]
          simp only [List.flatten_cons] at ih ⊢
          simp [ih]

/-- Re-segmenting the concatenation of the first `k` clusters of a
segmentation yields exactly those clusters: a prefix of clusters is itself
a valid segmentation. This is what makes the source's
"collect some graphemes into a `String`, then re-segment" idiom coherent. -/
theorem graphemes_join_take (s : List Char) (k : Nat) :
    graphemes (((graphemes s).take k).flatten) = (graphemes s).take k := by
  induction s generalizing k with
  | nil => simp [graphemes]
  | cons c cs ih =>
    rw [graphemes_cons]
    by_cases hc : isControlCh c
    · rw [graphemesStep_ctl _ hc]
      cases k with
      | zero => simp [graphemes]
      | succ j =>
        simp only [List.take_succ_cons, List.flatten_cons, List.cons_append,
          List.nil_append]
        rw [graphemes_cons, ih j, graphemesStep_ctl _ hc]
    · have hc' : isControlCh c = false := by simpa using hc
      rcases hgs : graphemes cs with _ | ⟨g, rest⟩
      · rw [graphemesStep_base hc']
        cases k with
        | zero => simp [graphemes]
        | succ j =>
          simp only [List.take_succ_cons, List.take_nil, List.flatten_cons,
            List.flatten_nil, List.append_nil]
          rw [graphemes_cons, graphemes_nil_def, graphemesStep_base hc']
      · by_cases hall : g.all isCombining
        · rw [graphemesStep_merge rest hc' hall]
          cases k with
          | zero => simp [graphemes]
          | succ j =>
            have hj := ih (j + 1)
            rw [hgs] at hj
            simp only [List.take_succ_cons, List.flatten_cons] at hj ⊢
            simp only [List.cons_append]
            rw [graphemes_cons, hj, graphemesStep_merge _ hc' hall]
        · have hall' : g.all isCombining = false := by simpa using hall
          rw [graphemesStep_new rest hc' hall']
          cases k with
          | zero => simp [graphemes]
          | succ j =>
            have hj := ih j
            rw [hgs] at hj
            simp only [List.take_succ_cons, List.flatten_cons, List.cons_append,
              List.nil_append]
            rw [graphemes_cons]
            cases j with
            | zero =>
              simp only [List.take_zero, List.flatten_nil] at hj ⊢
              rw [hj, graphemesStep_base hc']
            | succ j' =>
              simp only [List.take_succ_cons, List.flatten_cons] at hj ⊢
              rw [hj, graphemesStep_new _ hc' hall']

/-! ## Search primitives (`src/editor.rs`, `src/row.rs`) -/

/-- `SearchDirection` from `src/editor.rs`. -/
inductive SearchDirection
  | Forward
  | Backward
deriving DecidableEq

/-- Abstract model of a compiled `regex::Regex`: `findFirst` gives the byte
offset of the start of the first match (`Regex::find(..).start()`),
`findLast` the byte offset of the start of the last match
(`Regex::find_iter(..).last().start()`); `none` when there is no match. -/
structure Matcher where
  findFirst : List Char → Option Nat
  findLast : List Char → Option Nat

/-- Byte offsets at which the clusters of a segmentation start (the first
components of `grapheme_indices(true)`). -/
def clusterOffsets : List (List Char) → List Nat
  | [] => []
  | g :: gs => 0 :: (clusterOffsets gs).map (fun o => o + utf8Len g)

/-- Model of `.enumerate().find_map(..)` over the cluster offsets: the index
of the first offset equal to `target`, if any. -/
def findOffset (target : Nat) : List Nat → Option Nat
  | [] => none
  | o :: os => if o = target then some 0 else (findOffset target os).map (fun i => i + 1)

theorem clusterOffsets_length (gs : List (List Char)) :
    (clusterOffsets gs).length = gs.length := by
  induction gs with
  | nil => rfl
  | cons g gs ih => simp [clusterOffsets, ih]

theorem findOffset_lt_length {target : Nat} {os : List Nat} {i : Nat}
    (h : findOffset target os = some i) : i < os.length := by
  induction os generalizing i with
  | nil => simp [findOffset] at h
  | cons o os ih =>
    simp only [findOffset] at h
    split at h
    · cases h; simp
    · rcases Option.map_eq_some'.mp h with ⟨j, hj, rfl⟩
      have := ih hj
      simpa using Nat.succ_lt_succ this

theorem findOffset_eq_none {target : Nat} {os : List Nat}
    (h : target ∉ os) : findOffset target os = none := by
  induction os with
  | nil => rfl
  | cons o os ih =>
    simp only [List.mem_cons, not_or] at h
    have ho : ¬o = target := fun he => h.1 he.symm
    simp [findOffset, ho, ih h.2]

/-! ## Rows (`src/row.rs`)

A `Row` stores its text and a cached grapheme count
(`update_grapheme_count` recomputes the cache after each mutation). -/

structure Row where
  content : List Char
  grapheme_count : Nat
deriving DecidableEq

/-- `impl From<String> for Row`: build a row and compute its cache. -/
def Row.fromList (s : List Char) : Row :=
  ⟨s, (graphemes s).length⟩

instance : Inhabited Row := ⟨Row.fromList []⟩

/-- `Row::len`: the cached grapheme count. -/
def Row.len (r : Row) : Nat := r.grapheme_count

/-- `Row::len_bytes`: byte length of the underlying string. -/
def Row.len_bytes (r : Row) : Nat := utf8Len r.content

/-- Tab display substitution done inside `Row::render`'s loop: the grapheme
`"\t"` prints as one space, every other grapheme prints as itself. -/
def tabSub (g : List Char) : List Char :=
  if g = ['\t'] then [' '] else g

/-- `Row::render(range)`: clamp `range.end` to the **byte** length of the
content and `range.start` to the clamped end, then build the result by
folding over `graphemes(true).skip(start).take(end - start)`. -/
def Row.render (r : Row) (a b : Nat) : List Char :=
  let e := min b (utf8Len r.content)
  let s := min a e
  (((graphemes r.content).drop s).take (e - s)).foldl
    (fun acc g => acc ++ tabSub g) []

/-- The substring scanned by `Row::find`: the graphemes on the correct side
of `limit`, collected into a string. -/
def Row.scannedSub (r : Row) (limit : Nat) (dir : SearchDirection) : List Char :=
  let se : Nat × Nat :=
    match dir with
    | .Forward => (limit, r.grapheme_count)
    | .Backward => (0, limit)
  (((graphemes r.content).drop se.1).take (se.2 - se.1)).flatten

/-- The byte offset inside the scanned substring at which the regex engine
reports the relevant match (first match forward, last match backward). -/
def Row.targetByte (m : Matcher) (r : Row) (limit : Nat)
    (dir : SearchDirection) : Option Nat :=
  match dir with
  | .Forward => m.findFirst (r.scannedSub limit dir)
  | .Backward => m.findLast (r.scannedSub limit dir)

/-- `Row::find(query, limit, direction)`: `None` when `limit` exceeds the
grapheme count; otherwise search the scanned substring, then translate the
match's byte offset back to a grapheme index by scanning
`grapheme_indices(true)` for an exactly matching offset, and re-add the
grapheme offset of the substring. -/
def Row.find (m : Matcher) (r : Row) (limit : Nat)
    (dir : SearchDirection) : Option Nat :=
  if limit > r.grapheme_count then none
  else
    let start : Nat :=
      match dir with
      | .Forward => limit
      | .Backward => 0
    match Row.targetByte m r limit dir with
    | none => none
    | some target =>
      (findOffset target (clusterOffsets (graphemes (r.scannedSub limit dir)))).map
        (fun i => i + start)

/-- `Row::insert_or_append(idx, c)`: append when `idx ≥ len()`; otherwise
rebuild the content from the first `idx` graphemes, the new character, and
the remaining graphemes; recompute the cached count. -/
def Row.insert_or_append (r : Row) (idx : Nat) (c : Char) : Row :=
  let newContent :=
    if idx ≥ r.len then r.content ++ [c]
    else
      (((graphemes r.content).take idx).flatten ++ [c])
        ++ ((graphemes r.content).drop idx).flatten
  ⟨newContent, (graphemes newContent).length⟩

/-- `Row::delete(idx)`: no-op when `idx ≥ len()`; otherwise drop exactly the
grapheme cluster at `idx` and recompute the cached count. -/
def Row.delete (r : Row) (idx : Nat) : Row :=
  if idx ≥ r.len then r
  else
    let newContent :=
      ((graphemes r.content).take idx).flatten
        ++ ((graphemes r.content).drop (idx + 1)).flatten
    ⟨newContent, (graphemes newContent).length⟩

/-- `Row::push(other)`: append the other row's content, recompute the cache. -/
def Row.push (r other : Row) : Row :=
  let newContent := r.content ++ other.content
  ⟨newContent, (graphemes newContent).length⟩

/-- `Row::split(idx)`: truncate `self` to the graphemes before `idx` and
return (truncated row, new row with the graphemes at and after `idx`). -/
def Row.split (r : Row) (idx : Nat) : Row × Row :=
  let before := ((graphemes r.content).take idx).flatten
  let after := ((graphemes r.content).drop idx).flatten
  (⟨before, (graphemes before).length⟩, Row.fromList after)

/-! ## Positions and the document buffer (`src/document.rs`) -/

/-- `Position` from `src/editor.rs`: `x` is a grapheme column, `y` a row. -/
structure Position where
  x : Nat
  y : Nat
deriving DecidableEq

/-- `Vec::insert(idx, v)` as used by `Document::insert_newline`.  The source
only calls it with `idx ≤ len` (where it shifts the tail right); the
out-of-bounds clause is unreachable there. -/
def listInsertIdx {α : Type} : List α → Nat → α → List α
  | l, 0, v => v :: l
  | [], _ + 1, v => [v]
  | x :: xs, n + 1, v => x :: listInsertIdx xs n v

/-- Outcome of the file-system write performed by `Document::save`; the
file system is an external collaborator, so the outcome is a parameter. -/
inductive IOOutcome
  | success
  | failure
deriving DecidableEq

/-- `Document` from `src/document.rs`: rows, optional path, dirty flag. -/
structure Document where
  rows : List Row
  path : Option (List Char)
  dirty : Bool

/-- `Document::len`: the number of rows. -/
def Document.len (d : Document) : Nat := d.rows.length

/-- `Document::save`: with no path, writes nothing and returns `Ok(0)`;
with a path, returns the byte count on success and the I/O error on
failure. The `?` operator propagates a write failure *before* the
`self.dirty = false` assignment is reached, so the flag survives a failed
save. Returns the updated document and `some bytes` (Ok) or `none` (Err). -/
def Document.save (d : Document) (io : IOOutcome) (bytes : Nat) :
    Document × Option Nat :=
  match d.path with
  | none => ({ d with dirty := false }, some 0)
  | some _ =>
    match io with
    | .success => ({ d with dirty := false }, some bytes)
    | .failure => (d, none)

/-- `Document::insert_newline` (`pos.y == len()` is allowed, no-op if
`pos.y > len()`): mark dirty, append an empty row when `pos.y == len()`,
split the target row at `pos.x` and insert the tail right after it. -/
def Document.insert_newline (d : Document) (pos : Position) : Document :=
  if pos.y > d.rows.length then d
  else
    let rows1 :=
      if pos.y = d.rows.length then d.rows ++ [Row.fromList []] else d.rows
    let p := (rows1.getD pos.y default).split pos.x
    { d with
      dirty := true
      rows := listInsertIdx (rows1.set pos.y p.1) (pos.y + 1) p.2 }

/-- `Document::insert_or_append(pos, c)`: a newline delegates to
`insert_newline`; otherwise mark dirty, then either append a fresh
one-character row (`pos.y ≥ len()`) or insert into the target row. -/
def Document.insert_or_append (d : Document) (pos : Position) (c : Char) :
    Document :=
  if c = '\n' then d.insert_newline pos
  else
    if pos.y ≥ d.rows.length then
      { d with dirty := true, rows := d.rows ++ [Row.fromList [c]] }
    else
      { d with
        dirty := true
        rows := d.rows.set pos.y ((d.rows.getD pos.y default).insert_or_append pos.x c) }

/-- `Document::delete(pos)`: no-op when `pos.y ≥ len()`; mark dirty; when
`pos.x` is at the end of the row and the row is not the last one, remove
the next row and push its content onto the current row (line join);
otherwise delete the grapheme at `pos.x` in the row. -/
def Document.delete (d : Document) (pos : Position) : Document :=
  let len := d.rows.length
  if pos.y ≥ len then d
  else
    if pos.x = (d.rows.getD pos.y default).len ∧ pos.y < len - 1 then
      let next := d.rows.getD (pos.y + 1) default
      let rows2 := d.rows.eraseIdx (pos.y + 1)
      { d with
        dirty := true
        rows := rows2.set pos.y ((rows2.getD pos.y default).push next) }
    else
      { d with
        dirty := true
        rows := d.rows.set pos.y ((d.rows.getD pos.y default).delete pos.x) }

/-- `Document::find(query, limit, direction)`: `None` when `limit.y` is past
the buffer; otherwise scan `len - limit.y` rows forward, or `limit.y + 1`
rows backward, via `findLoop`. -/
def findLoop (rows : List Row) (m : Matcher) (dir : SearchDirection) :
    Nat → Position → Option Position
  | 0, _ => none
  | n + 1, pos =>
    match rows.get? pos.y with
    | none => none
    | some row =>
      match Row.find m row pos.x dir with
      | some x => some ⟨x, pos.y⟩
      | none =>
        match dir with
        | .Forward => findLoop rows m dir n ⟨0, pos.y + 1⟩
        | .Backward =>
          findLoop rows m dir n ⟨(rows.getD (pos.y - 1) default).len, pos.y - 1⟩

def Document.find (d : Document) (m : Matcher) (limit : Position)
    (dir : SearchDirection) : Option Position :=
  if limit.y > d.rows.length then none
  else
    let fuel :=
      match dir with
      | .Forward => d.rows.length - limit.y
      | .Backward => limit.y + 1
    findLoop d.rows m dir fuel limit

/-! ## Cursor movement and scrolling (`src/editor.rs`) -/

/-- The navigation keys handled by `Editor::move_cursor`. -/
inductive NavKey
  | Up
  | Down
  | Left
  | Right
  | PageUp
  | PageDown
  | Home
  | End
deriving DecidableEq

/-- `SCROLL_OFFSET`: cursor margin at top/bottom of the viewport. -/
def SCROLL_OFFSET : Nat := 5

/-- Row length at `y`, or 0 when there is no such row (the
`match self.document.get(y) { Some(row) => row.len(), None => 0 }` idiom). -/
def rowLenAt (rows : List Row) (y : Nat) : Nat :=
  match rows.get? y with
  | some row => row.len
  | none => 0

/-- `Editor::move_cursor`: the new cursor position produced by one
navigation key, including the final re-snap of `x` to the new row's
length.  All Rust `saturating_sub` calls are Nat subtraction. -/
def moveCursor (rows : List Row) (height : Nat) (pos : Position)
    (k : NavKey) : Position :=
  let x := pos.x
  let y := pos.y
  let x_max := rowLenAt rows y
  let y_max := rows.length - 1
  let p : Position :=
    match k with
    | .Up => ⟨x, y - 1⟩
    | .Down => ⟨x, min (y + 1) y_max⟩
    | .Left =>
      if x > 0 then ⟨x - 1, y⟩
      else if y > 0 then ⟨rowLenAt rows (y - 1), y - 1⟩
      else ⟨x, y⟩
    | .Right =>
      if x < x_max then ⟨x + 1, y⟩
      else if y < y_max then ⟨0, y + 1⟩
      else ⟨x, y⟩
    | .PageUp => ⟨x, y - height⟩
    | .PageDown => ⟨x, min (y + height) y_max⟩
    | .Home => ⟨0, y⟩
    | .End => ⟨x_max, y⟩
  ⟨min p.x (rowLenAt rows p.y), p.y⟩

/-- `Editor::scroll`: recompute the viewport offset from the cursor.
Vertically a `SCROLL_OFFSET` margin is kept, with the bottom target clamped
by `document.len() - height`; horizontally the offset tracks the cursor
with no margin.  Every subtraction is Rust `saturating_sub`, i.e. Nat
subtraction. -/
def scroll (cursor offset : Position) (width height docLen : Nat) : Position :=
  let oy :=
    if cursor.y < offset.y + SCROLL_OFFSET then
      cursor.y - SCROLL_OFFSET
    else if cursor.y ≥ offset.y + height - SCROLL_OFFSET then
      min (cursor.y + SCROLL_OFFSET - height + 1) (docLen - height)
    else offset.y
  let ox :=
    if cursor.x < offset.x then cursor.x
    else if cursor.x ≥ offset.x + width then cursor.x - width + 1
    else offset.x
  ⟨ox, oy⟩

/-! ## Helper lemmas -/

theorem foldl_append_eq_flatten_map {α β : Type} (f : α → List β)
    (l : List α) (acc : List β) :
    l.foldl (fun acc g => acc ++ f g) acc = acc ++ (l.map f).flatten := by
  induction l generalizing acc with
  | nil => simp
  | cons g l ih => simp [ih, List.append_assoc]

theorem take_append_cons {α : Type} (A : List α) (x : α) (B : List α) :
    (A ++ x :: B).take A.length = A := by
  simp

theorem drop_append_cons {α : Type} (A : List α) (x : α) (B : List α) :
    (A ++ x :: B).drop (A.length + 1) = B := by
  rw [← List.drop_drop, List.drop_left]
  rfl

theorem take_append_cons_of_length {α : Type} {A : List α} {n : Nat}
    (x : α) (B : List α) (h : A.length = n) : (A ++ x :: B).take n = A := by
  subst h; exact take_append_cons A x B

theorem drop_append_cons_of_length {α : Type} {A : List α} {n : Nat}
    (x : α) (B : List α) (h : A.length = n) : (A ++ x :: B).drop (n + 1) = B := by
  subst h; exact drop_append_cons A x B

/-! ## Claim theorems -/

/-- **C7** — For every row `r` (built from any string `s`) and every index
`i`, `split(r, i)` then `push`ing the returned half back onto the truncated
half reconstructs exactly `r`'s original content; moreover for
`i ≥ length(r)` the new row is empty and the truncated row keeps the whole
content.  (Proved for all `i`, which covers the claim's `i ∈ [0, length]`.) -/
theorem split_push_roundtrip (s : List Char) (i : Nat) :
    ((((Row.fromList s).split i).1.push ((Row.fromList s).split i).2).content = s)
    ∧ ((Row.fromList s).len ≤ i →
        (((Row.fromList s).split i).2.content = []
          ∧ (((Row.fromList s).split i).1.content = s))) := by
  constructor
  · show ((graphemes s).take i).flatten ++ ((graphemes s).drop i).flatten = s
    rw [← List.flatten_append, List.take_append_drop, graphemes_join]
  · intro hi
    have hi' : (graphemes s).length ≤ i := hi
    constructor
    · show ((graphemes s).drop i).flatten = []
      rw [List.drop_eq_nil_of_le hi', List.flatten_nil]
    · show ((graphemes s).take i).flatten = s
      rw [List.take_of_length_le hi', graphemes_join]

/-- Witness for C7 at `s = "a"`, `i = 1` (the split-at-end case). -/
theorem split_push_roundtrip_witness :
    ((Row.fromList ['a']).split 1).2.content = []
      ∧ ((Row.fromList ['a']).split 1).1.content = ['a'] :=
  (split_push_roundtrip ['a'] 1).2 (by decide)

/-- **C9** — After `move_cursor` processes any navigation key in any cursor
state, the resulting column is at most the grapheme count of the row at the
resulting line (0 when there is no such row): this is the final re-snap
`x = min(x, x_max)` of `Editor::move_cursor`.  Proved without any bounds
hypothesis, which subsumes "within buffer bounds". -/
theorem move_cursor_x_clamped (rows : List Row) (height : Nat)
    (pos : Position) (k : NavKey) :
    (moveCursor rows height pos k).x
      ≤ rowLenAt rows (moveCursor rows height pos k).y :=
  Nat.min_le_right _ _

/-- **C8** — Viewport scrolling: (1) the spec's scenario: with scroll margin
5, viewport height 20 and a 100-row document, a cursor on row 4 while the
vertical offset is 10 pulls the offset to `4 - 5` clamped to 0 (Nat
subtraction models the `saturating_sub`, so no underflow is possible);
(2) in general, in the above-margin case the new offset is exactly
`cursor.y - SCROLL_OFFSET` (saturating), and in the below-margin case the
clamp `docLen - height` takes precedence over the margin target. -/
theorem scroll_margin_props :
    (∀ cx ox w : Nat, (scroll ⟨cx, 4⟩ ⟨ox, 10⟩ w 20 100).y = 0)
    ∧ (∀ (cursor offset : Position) (w h len : Nat),
        (cursor.y < offset.y + SCROLL_OFFSET →
          (scroll cursor offset w h len).y = cursor.y - SCROLL_OFFSET)
        ∧ (¬ cursor.y < offset.y + SCROLL_OFFSET →
            offset.y + h - SCROLL_OFFSET ≤ cursor.y →
            (scroll cursor offset w h len).y ≤ len - h)) := by
  constructor
  · intro cx ox w
    show (if (4 : Nat) < 10 + SCROLL_OFFSET then 4 - SCROLL_OFFSET
      else if (4 : Nat) ≥ 10 + 20 - SCROLL_OFFSET then
        min (4 + SCROLL_OFFSET - 20 + 1) (100 - 20) else 10) = 0
    norm_num [SCROLL_OFFSET]
  · intro cursor offset w h len
    constructor
    · intro h1
      show (if cursor.y < offset.y + SCROLL_OFFSET then cursor.y - SCROLL_OFFSET
        else if cursor.y ≥ offset.y + h - SCROLL_OFFSET then
          min (cursor.y + SCROLL_OFFSET - h + 1) (len - h) else offset.y)
        = cursor.y - SCROLL_OFFSET
      rw [if_pos h1]
    · intro h1 h2
      show (if cursor.y < offset.y + SCROLL_OFFSET then cursor.y - SCROLL_OFFSET
        else if cursor.y ≥ offset.y + h - SCROLL_OFFSET then
          min (cursor.y + SCROLL_OFFSET - h + 1) (len - h) else offset.y)
        ≤ len - h
      rw [if_neg h1, if_pos h2]
      exact Nat.min_le_right _ _

/-- Witness for C8's general clauses at the scenario's numbers. -/
theorem scroll_margin_props_witness :
    (scroll ⟨0, 4⟩ ⟨0, 10⟩ 80 20 100).y = 4 - SCROLL_OFFSET :=
  (scroll_margin_props.2 ⟨0, 4⟩ ⟨0, 10⟩ 80 20 100).1 (by decide)

/-- **C10** — If the regex engine reports the relevant match of the scanned
substring at a byte offset that is not the start of any grapheme cluster of
that substring, `Row::find` returns `None`: the offset-to-grapheme
translation only accepts exact cluster starts, it never rounds. -/
theorem find_none_of_mid_cluster_match (r : Row) (m : Matcher) (limit : Nat)
    (dir : SearchDirection) (t : Nat)
    (ht : Row.targetByte m r limit dir = some t)
    (hmem : t ∉ clusterOffsets (graphemes (r.scannedSub limit dir))) :
    Row.find m r limit dir = none := by
  unfold Row.find
  split
  · rfl
  · simp only [ht, findOffset_eq_none hmem, Option.map_none']

/-- A matcher reporting a match at byte offset 1, as the regex `́`
does on the two-byte, single-cluster string `"é"`. -/
def matchAtOne : Matcher := ⟨fun _ => some 1, fun _ => some 1⟩

/-- Witness for C10: on the row `"é"` (one cluster), a match starting
at byte 1 (inside the cluster) is never reported. -/
theorem find_none_of_mid_cluster_match_witness :
    Row.find matchAtOne (Row.fromList ['e', Char.ofNat 0x301]) 0 .Forward = none :=
  find_none_of_mid_cluster_match (Row.fromList ['e', Char.ofNat 0x301])
    matchAtOne 0 .Forward 1 rfl (by decide)

/-- **C1, counterexample** — Insert-then-delete at the same slot is *not*
the identity on the code: inserting U+0301 COMBINING ACUTE ACCENT into
`"ab"` at grapheme index 1 merges with the preceding `'a'` into the single
cluster `"á"`; deleting at index 1 then removes `"b"`, leaving `"á"`, not
`"ab"` — even though `1 ≤ length("ab")` as the claim requires. -/
theorem insert_delete_cex :
    1 ≤ (Row.fromList ['a', 'b']).len
    ∧ (((Row.fromList ['a', 'b']).insert_or_append 1 (Char.ofNat 0x301)).delete 1).content
        ≠ ['a', 'b'] := by decide

/-- **C1, amended** — Insert-then-delete at the same grapheme slot restores
the original content whenever the inserted character does not coalesce with
its neighbours, i.e. whenever the new content segments as the old clusters
with `[c]` inserted as its own cluster at position `i` (always the case
for, e.g., printable non-combining characters inserted next to
non-combining neighbours). -/
theorem insert_delete_id (s : List Char) (i : Nat) (c : Char)
    (hi : i ≤ (Row.fromList s).len)
    (hseg : graphemes ((Row.fromList s).insert_or_append i c).content
      = (graphemes s).take i ++ [c] :: (graphemes s).drop i) :
    (((Row.fromList s).insert_or_append i c).delete i).content = s := by
  have hi' : i ≤ (graphemes s).length := hi
  have htake : ((graphemes s).take i).length = i := by
    simpa using hi'
  have hcount : ((Row.fromList s).insert_or_append i c).grapheme_count
      = (graphemes ((Row.fromList s).insert_or_append i c).content).length := rfl
  unfold Row.delete
  rw [if_neg]
  · show (((graphemes ((Row.fromList s).insert_or_append i c).content).take i).flatten
        ++ ((graphemes ((Row.fromList s).insert_or_append i c).content).drop (i + 1)).flatten) = s
    rw [hseg]
    rw [take_append_cons_of_length [c] _ htake, drop_append_cons_of_length [c] _ htake]
    rw [← List.flatten_append, List.take_append_drop, graphemes_join]
  · rw [Row.len, hcount, hseg]
    simp only [List.length_append, List.length_cons, htake]
    omega

/-- Witness for the amended C1: inserting a plain `'x'` into `"ab"` at
index 1 and deleting it again restores `"ab"`. -/
theorem insert_delete_id_witness :
    (((Row.fromList ['a', 'b']).insert_or_append 1 'x').delete 1).content
      = ['a', 'b'] :=
  insert_delete_id ['a', 'b'] 1 'x' (by decide) (by decide)

/-- Modelled from the spec: `render` as the spec's words describe it — the
byte slice of the content visible in the byte window `[start', end')`
(after the spec's clamps), truncated to full grapheme clusters so that no
cluster is split, with tabs substituted by a space.  `clustersInWindow`
keeps exactly the clusters whose byte extent lies inside the window. -/
def clustersInWindow (s e : Nat) : Nat → List (List Char) → List (List Char)
  | _, [] => []
  | off, g :: gs =>
    if s ≤ off ∧ off + utf8Len g ≤ e then
      g :: clustersInWindow s e (off + utf8Len g) gs
    else clustersInWindow s e (off + utf8Len g) gs

/-- Modelled from the spec: the byte-window rendering policy the spec
ascribes to `Row::render`. -/
def renderSpec (r : Row) (a b : Nat) : List Char :=
  let e := min b (utf8Len r.content)
  let s := min a e
  ((clustersInWindow s e 0 (graphemes r.content)).map tabSub).flatten

/-- **C2, counterexample** — `render` does not return the byte-window
slice: on the row `"éa"` (bytes: é = 2, a = 1) the byte range `[2, 3)`
contains exactly the full grapheme `"a"` (no truncation is even needed),
but the code interprets the clamped bounds as *grapheme* counts
(`skip 2 · take 1` of a 2-grapheme row) and returns the empty string. -/
theorem render_byte_window_cex :
    Row.render (Row.fromList [Char.ofNat 0xE9, 'a']) 2 3 = []
    ∧ renderSpec (Row.fromList [Char.ofNat 0xE9, 'a']) 2 3 = ['a']
    ∧ ([] : List Char) ≠ ['a'] := by decide

/-- **C2, amended** — `render(range)` clamps `range.end` to the content's
byte length and `range.start` to the clamped end, but then treats the two
clamped bounds as *grapheme* indices: it returns the concatenation of
graphemes `start' ..< end'` (skip `start'`, take `end' - start'`), each tab
cluster replaced by a single space.  Consequently it never splits a
grapheme cluster: the output is the image of a contiguous run of whole
clusters (second conjunct). -/
theorem render_graphemewise (s : List Char) (a b : Nat) :
    (Row.render (Row.fromList s) a b
      = ((((graphemes s).drop (min a (min b (utf8Len s)))).take
            (min b (utf8Len s) - min a (min b (utf8Len s)))).map tabSub).flatten)
    ∧ ∃ pre post,
        graphemes s
          = pre ++ (((graphemes s).drop (min a (min b (utf8Len s)))).take
              (min b (utf8Len s) - min a (min b (utf8Len s)))) ++ post := by
  constructor
  · show (((graphemes s).drop (min a (min b (utf8Len s)))).take
          (min b (utf8Len s) - min a (min b (utf8Len s)))).foldl
        (fun acc g => acc ++ tabSub g) []
      = ((((graphemes s).drop (min a (min b (utf8Len s)))).take
            (min b (utf8Len s) - min a (min b (utf8Len s)))).map tabSub).flatten
    rw [foldl_append_eq_flatten_map, List.nil_append]
  · refine ⟨(graphemes s).take (min a (min b (utf8Len s))),
      ((graphemes s).drop (min a (min b (utf8Len s)))).drop
        (min b (utf8Len s) - min a (min b (utf8Len s))), ?_⟩
    rw [List.append_assoc, List.take_append_drop, List.take_append_drop]

/-! ### List-surgery helpers for the buffer-level claims -/

theorem getD_append_cons_of_length {α : Type} {A : List α} {n : Nat}
    (x : α) (B : List α) (dflt : α) (h : A.length = n) :
    (A ++ x :: B).getD n dflt = x := by
  subst h
  induction A with
  | nil => rfl
  | cons a A ih => simpa using ih

theorem insertIdx_cons_succ {α : Type} (a : α) (xs : List α) (n : Nat) (v : α) :
    listInsertIdx (a :: xs) (n + 1) v = a :: listInsertIdx xs n v := rfl

theorem set_append_cons_of_length {α : Type} {A : List α} {n : Nat}
    (x v : α) (B : List α) (h : A.length = n) :
    (A ++ x :: B).set n v = A ++ v :: B := by
  subst h
  induction A with
  | nil => rfl
  | cons a A ih => simp [ih]

theorem insertIdx_append_cons_of_length {α : Type} {A : List α} {n : Nat}
    (x v : α) (B : List α) (h : A.length = n) :
    listInsertIdx (A ++ x :: B) (n + 1) v = A ++ x :: v :: B := by
  subst h
  induction A with
  | nil => simp [listInsertIdx]
  | cons a A ih => simpa [insertIdx_cons_succ] using ih

theorem insertIdx_at_length_of {α : Type} {l : List α} {n : Nat}
    (v : α) (h : l.length = n) : listInsertIdx l n v = l ++ [v] := by
  subst h
  induction l with
  | nil => rfl
  | cons a l ih => simpa [insertIdx_cons_succ] using ih

theorem eraseIdx_succ_split {α : Type} (l : List α) (y : Nat) (dflt : α)
    (h : y < l.length) :
    l.eraseIdx (y + 1) = l.take y ++ l.getD y dflt :: l.drop (y + 2) := by
  induction l generalizing y with
  | nil => simp at h
  | cons a l ih =>
    cases y with
    | zero => cases l <;> simp [List.eraseIdx]
    | succ y' =>
      have h' : y' < l.length := by simpa using Nat.lt_of_succ_lt_succ h
      simpa [List.eraseIdx] using ih y' h'

/-- **C3** — Dirty-flag discipline: every content-mutating operation sets
the flag (character insert/append for any non-newline character, newline
insertion whenever it is not the out-of-bounds no-op, delete whenever it is
not the out-of-bounds no-op); the mutating operations never clear it; a
save that fails with an I/O error leaves the flag untouched (so a dirty
buffer stays dirty) and returns the error; and the flag is cleared only
when save returns success. -/
theorem dirty_flag_discipline :
    (∀ (d : Document) (pos : Position) (c : Char), c ≠ '\n' →
        (d.insert_or_append pos c).dirty = true)
    ∧ (∀ (d : Document) (pos : Position), pos.y ≤ d.rows.length →
        (d.insert_or_append pos '\n').dirty = true)
    ∧ (∀ (d : Document) (pos : Position), pos.y < d.rows.length →
        (d.delete pos).dirty = true)
    ∧ (∀ (d : Document) (pos : Position) (c : Char), d.dirty = true →
        (d.insert_or_append pos c).dirty = true ∧ (d.delete pos).dirty = true)
    ∧ (∀ (d : Document) (bytes : Nat), d.path.isSome = true →
        (d.save .failure bytes).1.dirty = d.dirty
          ∧ (d.save .failure bytes).2 = none)
    ∧ (∀ (d : Document) (io : IOOutcome) (bytes : Nat),
        (d.save io bytes).1.dirty = false → d.dirty = true →
        ((d.save io bytes).2).isSome = true) := by
  refine ⟨?_, ?_, ?_, ?_, ?_, ?_⟩
  · intro d pos c hc
    unfold Document.insert_or_append
    rw [if_neg hc]
    split <;> rfl
  · intro d pos h
    unfold Document.insert_or_append Document.insert_newline
    rw [if_pos rfl, if_neg (by omega)]
  · intro d pos h
    unfold Document.delete
    rw [if_neg (by omega)]
    split <;> rfl
  · intro d pos c hd
    constructor
    · unfold Document.insert_or_append Document.insert_newline
      split
      · split
        · exact hd
        · rfl
      · split <;> rfl
    · unfold Document.delete
      by_cases hy : pos.y ≥ d.rows.length
      · rw [if_pos hy]
        exact hd
      · rw [if_neg hy]
        by_cases hx : pos.x = (d.rows.getD pos.y default).len
            ∧ pos.y < d.rows.length - 1
        · rw [if_pos hx]
        · rw [if_neg hx]
  · intro d bytes hp
    obtain ⟨p, hp⟩ := Option.isSome_iff_exists.mp hp
    simp [Document.save, hp]
  · intro d io bytes h1 h2
    rcases hpath : d.path with _ | p
    · simp [Document.save, hpath]
    · cases io with
      | success => simp [Document.save, hpath]
      | failure =>
        simp only [Document.save, hpath] at h1
        rw [h2] at h1
        exact absurd h1 (by simp)

/-- Witness for C3 at a concrete document. -/
theorem dirty_flag_discipline_witness :
    ((Document.mk [] none false).insert_or_append ⟨0, 0⟩ 'a').dirty = true :=
  dirty_flag_discipline.1 (Document.mk [] none false) ⟨0, 0⟩ 'a' (by decide)

/-- **C4** — `Document::delete(pos)`: a no-op when `pos.y ≥ rowCount`; when
`pos.x` equals the length of row `pos.y` and that row is not the last one,
it removes row `pos.y + 1` and appends its content to row `pos.y`,
decreasing the row count by exactly one; otherwise it deletes the grapheme
at `pos.x` inside row `pos.y`.  The last conjunct is the spec's scenario:
`["hello", "world"]` with delete at `(5, 0)` becomes `["helloworld"]`. -/
theorem document_delete_spec :
    (∀ (d : Document) (pos : Position), d.rows.length ≤ pos.y →
        d.delete pos = d)
    ∧ (∀ (d : Document) (pos : Position),
        pos.y < d.rows.length →
        pos.x = (d.rows.getD pos.y default).len →
        pos.y < d.rows.length - 1 →
        ((d.delete pos).rows
            = d.rows.take pos.y
              ++ ((d.rows.getD pos.y default).push (d.rows.getD (pos.y + 1) default))
                :: d.rows.drop (pos.y + 2)
          ∧ (d.delete pos).rows.length = d.rows.length - 1
          ∧ ((d.delete pos).rows.getD pos.y default).content
              = (d.rows.getD pos.y default).content
                ++ (d.rows.getD (pos.y + 1) default).content))
    ∧ (∀ (d : Document) (pos : Position),
        pos.y < d.rows.length →
        ¬(pos.x = (d.rows.getD pos.y default).len ∧ pos.y < d.rows.length - 1) →
        (d.delete pos).rows
          = d.rows.take pos.y
            ++ ((d.rows.getD pos.y default).delete pos.x) :: d.rows.drop (pos.y + 1))
    ∧ ((Document.mk
          [Row.fromList ['h', 'e', 'l', 'l', 'o'],
            Row.fromList ['w', 'o', 'r', 'l', 'd']] none false).delete ⟨5, 0⟩).rows
        = [Row.fromList ['h', 'e', 'l', 'l', 'o', 'w', 'o', 'r', 'l', 'd']] := by
  have main : ∀ (d : Document) (pos : Position),
      pos.y < d.rows.length →
      pos.x = (d.rows.getD pos.y default).len →
      pos.y < d.rows.length - 1 →
      (d.delete pos).rows
        = d.rows.take pos.y
          ++ ((d.rows.getD pos.y default).push (d.rows.getD (pos.y + 1) default))
            :: d.rows.drop (pos.y + 2) := by
    intro d pos h1 h2 h3
    unfold Document.delete
    rw [if_neg (by omega), if_pos ⟨h2, h3⟩]
    show (d.rows.eraseIdx (pos.y + 1)).set pos.y
        (((d.rows.eraseIdx (pos.y + 1)).getD pos.y default).push
          (d.rows.getD (pos.y + 1) default)) = _
    have htl : (d.rows.take pos.y).length = pos.y := by
      simp [List.length_take]
      omega
    rw [eraseIdx_succ_split d.rows pos.y default h1]
    rw [getD_append_cons_of_length _ _ _ htl]
    rw [set_append_cons_of_length _ _ _ htl]
  refine ⟨?_, ?_, ?_, ?_⟩
  · intro d pos h
    unfold Document.delete
    rw [if_pos (by omega)]
  · intro d pos h1 h2 h3
    have hm := main d pos h1 h2 h3
    have htl : (d.rows.take pos.y).length = pos.y := by
      simp [List.length_take]
      omega
    refine ⟨hm, ?_, ?_⟩
    · rw [hm]
      simp only [List.length_append, List.length_cons, List.length_drop, htl]
      omega
    · rw [hm, getD_append_cons_of_length _ _ _ htl]
      rfl
  · intro d pos h1 h2
    unfold Document.delete
    rw [if_neg (by omega), if_neg h2]
    show d.rows.set pos.y ((d.rows.getD pos.y default).delete pos.x) = _
    have htl : (d.rows.take pos.y).length = pos.y := by
      simp [List.length_take]
      omega
    rw [List.set_eq_take_cons_drop _ h1]
  · decide

/-- Witness for C4's no-op clause at a concrete document. -/
theorem document_delete_spec_witness :
    (Document.mk [] none false).delete ⟨0, 0⟩ = Document.mk [] none false :=
  document_delete_spec.1 (Document.mk [] none false) ⟨0, 0⟩ (by decide)

/-- **C6** — Newline insertion: a no-op when `pos.y > rowCount`; the
newline character delegates `insert_or_append` to `insert_newline`; when
`pos.y = rowCount` an empty row is appended first and then split (so two
empty rows are appended); when `pos.y < rowCount` the row is split at
grapheme index `pos.x`, the prefix stays in place and the suffix becomes a
new row immediately after.  The last conjunct is the spec's scenario:
`["ab"]` with a newline at `(1, 0)` becomes `["a", "b"]`. -/
theorem insert_newline_spec :
    (∀ (d : Document) (pos : Position), d.rows.length < pos.y →
        d.insert_newline pos = d)
    ∧ (∀ (d : Document) (pos : Position),
        d.insert_or_append pos '\n' = d.insert_newline pos)
    ∧ (∀ (d : Document) (pos : Position), pos.y = d.rows.length →
        (d.insert_newline pos).rows = d.rows ++ [Row.fromList [], Row.fromList []])
    ∧ (∀ (d : Document) (pos : Position), pos.y < d.rows.length →
        (d.insert_newline pos).rows
          = d.rows.take pos.y
            ++ Row.fromList (((graphemes (d.rows.getD pos.y default).content).take pos.x).flatten)
              :: Row.fromList (((graphemes (d.rows.getD pos.y default).content).drop pos.x).flatten)
              :: d.rows.drop (pos.y + 1))
    ∧ ((Document.mk [Row.fromList ['a', 'b']] none false).insert_or_append ⟨1, 0⟩ '\n').rows
        = [Row.fromList ['a'], Row.fromList ['b']] := by
  refine ⟨?_, ?_, ?_, ?_, ?_⟩
  · intro d pos h
    unfold Document.insert_newline
    rw [if_pos h]
  · intro d pos
    unfold Document.insert_or_append
    rw [if_pos rfl]
  · intro d pos h
    unfold Document.insert_newline
    rw [if_neg (by omega), if_pos h]
    show listInsertIdx
        ((d.rows ++ [Row.fromList []]).set pos.y
          (((d.rows ++ [Row.fromList []]).getD pos.y default).split pos.x).1)
        (pos.y + 1)
        (((d.rows ++ [Row.fromList []]).getD pos.y default).split pos.x).2 = _
    have hget : (d.rows ++ [Row.fromList []]).getD pos.y default = Row.fromList [] :=
      getD_append_cons_of_length _ _ _ h.symm
    have hsplit1 : ((Row.fromList ([] : List Char)).split pos.x).1 = Row.fromList [] := by
      simp [Row.split, Row.fromList, graphemes_nil_def]
    have hsplit2 : ((Row.fromList ([] : List Char)).split pos.x).2 = Row.fromList [] := by
      simp [Row.split, Row.fromList, graphemes_nil_def]
    rw [hget, hsplit1, hsplit2]
    rw [set_append_cons_of_length _ _ _ h.symm]
    rw [insertIdx_at_length_of _ (by simp [h])]
    simp
  · intro d pos h
    unfold Document.insert_newline
    rw [if_neg (by omega), if_neg (by omega)]
    show listInsertIdx
        (d.rows.set pos.y (((d.rows.getD pos.y default).split pos.x).1)) (pos.y + 1)
        (((d.rows.getD pos.y default).split pos.x).2) = _
    have htl : (d.rows.take pos.y).length = pos.y := by
      simp [List.length_take]
      omega
    rw [List.set_eq_take_cons_drop _ h]
    rw [insertIdx_append_cons_of_length _ _ _ htl]
    rfl
  · decide

/-- Witness for C6's no-op clause at a concrete document. -/
theorem insert_newline_spec_witness :
    (Document.mk [] none false).insert_newline ⟨0, 1⟩ = Document.mk [] none false :=
  insert_newline_spec.1 (Document.mk [] none false) ⟨0, 1⟩ (by decide)

/-! ### Search bounds (C5) -/

/-- Forward `Row::find` never reports a grapheme index below `limit`:
the reported index is `i + start` with `start = limit`. -/
theorem row_find_forward_ge (m : Matcher) (r : Row) (limit j : Nat)
    (h : Row.find m r limit .Forward = some j) : limit ≤ j := by
  unfold Row.find at h
  split at h
  · simp at h
  · rcases ht : Row.targetByte m r limit .Forward with _ | t <;> rw [ht] at h
    · simp at h
    · simp only [Option.map_eq_some'] at h
      obtain ⟨i, _, hij⟩ := h
      omega

/-- Backward `Row::find` never reports a grapheme index at or past `limit`:
the scanned substring consists of the first `limit` clusters, so (using
`graphemes_join_take`) its re-segmentation has at most `limit` clusters,
and the reported index is the position of one of them. -/
theorem row_find_backward_lt (m : Matcher) (r : Row) (limit j : Nat)
    (h : Row.find m r limit .Backward = some j) : j < limit := by
  unfold Row.find at h
  split at h
  · simp at h
  · rcases ht : Row.targetByte m r limit .Backward with _ | t <;> rw [ht] at h
    · simp at h
    · simp only [Option.map_eq_some'] at h
      obtain ⟨i, hi, hij⟩ := h
      have hlt : i < (clusterOffsets (graphemes (r.scannedSub limit .Backward))).length :=
        findOffset_lt_length hi
      rw [clusterOffsets_length] at hlt
      have hsub : graphemes (r.scannedSub limit .Backward)
          = (graphemes r.content).take limit := by
        show graphemes ((((graphemes r.content).drop 0).take (limit - 0)).flatten) = _
        simp only [List.drop_zero, Nat.sub_zero]
        exact graphemes_join_take r.content limit
      rw [hsub] at hlt
      have hle : ((graphemes r.content).take limit).length ≤ limit := by simp
      omega

/-- Loop invariant of `Document::find`, forward direction: any hit lies at
or after the loop's current position (which only moves forward). -/
theorem findLoop_forward_ge (rows : List Row) (m : Matcher) :
    ∀ (n : Nat) (pos p : Position),
      findLoop rows m .Forward n pos = some p →
      pos.y ≤ p.y ∧ (p.y = pos.y → pos.x ≤ p.x) := by
  intro n
  induction n with
  | zero => intro pos p h; simp [findLoop] at h
  | succ n ih =>
    intro pos p h
    simp only [findLoop] at h
    rcases hrow : rows.get? pos.y with _ | row <;> simp only [hrow] at h
    · exact absurd h (by simp)
    · rcases hf : Row.find m row pos.x .Forward with _ | x <;> simp only [hf] at h
      · have hrec : pos.y + 1 ≤ p.y ∧ (p.y = pos.y + 1 → 0 ≤ p.x) :=
          ih ⟨0, pos.y + 1⟩ p h
        exact ⟨by omega, fun hy => by omega⟩
      · simp only [Option.some.injEq] at h
        subst h
        exact ⟨Nat.le_refl _, fun _ => row_find_forward_ge m row pos.x x hf⟩

/-- Loop invariant of `Document::find`, backward direction: with fuel
bounded by `pos.y + 1`, any hit lies strictly before the loop's current
position in row-major order. -/
theorem findLoop_backward_lt (rows : List Row) (m : Matcher) :
    ∀ (n : Nat) (pos p : Position), n ≤ pos.y + 1 →
      findLoop rows m .Backward n pos = some p →
      p.y < pos.y ∨ (p.y = pos.y ∧ p.x < pos.x) := by
  intro n
  induction n with
  | zero => intro pos p hn h; simp [findLoop] at h
  | succ n ih =>
    intro pos p hn h
    simp only [findLoop] at h
    rcases hrow : rows.get? pos.y with _ | row <;> simp only [hrow] at h
    · exact absurd h (by simp)
    · rcases hf : Row.find m row pos.x .Backward with _ | x <;> simp only [hf] at h
      · by_cases hy0 : pos.y = 0
        · have hn0 : n = 0 := by omega
          subst hn0
          simp [findLoop] at h
        · have hrec : p.y < pos.y - 1
              ∨ (p.y = pos.y - 1 ∧ p.x < (rows.getD (pos.y - 1) default).len) :=
            ih ⟨(rows.getD (pos.y - 1) default).len, pos.y - 1⟩ p
              (show n ≤ pos.y - 1 + 1 by omega) h
          left
          rcases hrec with h' | ⟨h', _⟩ <;> omega
      · simp only [Option.some.injEq] at h
        subst h
        exact Or.inr ⟨rfl, row_find_backward_lt m row pos.x x hf⟩

/-- **C5** — Whenever forward `Document::find` from position `p₀` returns a
match position, that position is at or after `p₀` in row-major order, and
whenever backward `Document::find` returns a match position, it is strictly
before `p₀` in row-major order. -/
theorem find_direction_bounds :
    (∀ (d : Document) (m : Matcher) (limit p : Position),
        d.find m limit .Forward = some p →
        (limit.y < p.y ∨ (limit.y = p.y ∧ limit.x ≤ p.x)))
    ∧ (∀ (d : Document) (m : Matcher) (limit p : Position),
        d.find m limit .Backward = some p →
        (p.y < limit.y ∨ (p.y = limit.y ∧ p.x < limit.x))) := by
  constructor
  · intro d m limit p h
    unfold Document.find at h
    split at h
    · simp at h
    · have hinv := findLoop_forward_ge d.rows m _ limit p h
      rcases Nat.eq_or_lt_of_le hinv.1 with he | hl
      · exact Or.inr ⟨he, hinv.2 he.symm⟩
      · exact Or.inl hl
  · intro d m limit p h
    unfold Document.find at h
    split at h
    · simp at h
    · exact findLoop_backward_lt d.rows m _ limit p (Nat.le_refl _) h

/-- A matcher reporting a match at byte 0 of any nonempty string (as the
regex `.` would, modulo multi-byte details). -/
def matchAtZero : Matcher :=
  ⟨fun s => if s.isEmpty then none else some 0,
    fun s => if s.isEmpty then none else some 0⟩

/-- Witness for C5: a forward search from `(0,0)` on the buffer `["ab"]`
returns `(0,0)`, which is at-or-after `(0,0)`. -/
theorem find_direction_bounds_witness :
    (0 : Nat) < 0 ∨ ((0 : Nat) = 0 ∧ (0 : Nat) ≤ 0) :=
  find_direction_bounds.1 (Document.mk [Row.fromList ['a', 'b']] none false)
    matchAtZero ⟨0, 0⟩ ⟨0, 0⟩ (by decide)

end Hecto
